import Mathlib

/-!
Verification of the history-feed browser extension
(blacklist rule matcher, statistics aggregation, feed pagination,
chat session store).

The JavaScript sources are shallowly embedded as executable Lean
definitions:

* `src/extension/config.js` — the `Blacklist` class
  (`matches`, `_matchDomain`, `_matchPattern`);
* the statistics page — `getRootDomain`, `processDomainData`;
* the feed page — `loadMoreHistory` (pagination state machine);
* the chat layer — `chatHistories` with `clearCurrentChat` / `clearAllChats`.

External platform facilities (the WHATWG `new URL` parser and the
`chrome.history.getVisits` lookup) are modelled as explicit function
parameters (`parse`, `getVisits`): the code treats both as black boxes.
JavaScript regular expressions built by the blacklist code have the shape
"literal characters plus `.*` wildcards" (dots are escaped, `*` becomes
`.*`, remaining characters are taken literally, which coincides with the
JS regex on the hostname/URL pattern alphabet); they are embedded as the
glob matcher `globMatch`, whose declarative meaning `GlobSem`
("`*` matches zero or more of any character") is proved equivalent.
-/

/-- Models JS `String.prototype.toLowerCase` (character-wise lowering;
the rule alphabets involved are ASCII). -/
def jsToLowerCase (s : String) : String := ⟨s.data.map Char.toLower⟩

/-- Models JS `String.prototype.includes`: `strIncludes needle hay` is true
iff `needle` occurs as a contiguous substring of `hay`. -/
def strIncludes (needle : List Char) : List Char → Bool
  | [] => needle.isPrefixOf []
  | c :: t => needle.isPrefixOf (c :: t) || strIncludes needle t

/-- Anchored matching of a wildcard pattern against a string: every
pattern character is a literal except `*`, which matches zero or more
arbitrary characters.  This is the semantics of the regexes the
blacklist code builds (dots escaped, `*` turned into `.*`, anchored). -/
def globMatch : List Char → List Char → Bool
  | [], s => s.isEmpty
  | c :: ps, s =>
    if c = '*' then s.tails.any fun t => globMatch ps t
    else
      match s with
      | [] => false
      | d :: s' => c == d && globMatch ps s'

/-- Declarative meaning of a wildcard pattern: a literal character matches
itself, `*` matches zero or more of any character, and the whole pattern
must match the whole string. -/
def GlobSem : List Char → List Char → Prop
  | [], s => s = []
  | c :: ps, s =>
    if c = '*' then ∃ a b, s = a ++ b ∧ GlobSem ps b
    else ∃ t, s = c :: t ∧ GlobSem ps t

theorem globMatch_iff (ps : List Char) :
    ∀ s, globMatch ps s = true ↔ GlobSem ps s := by
  induction ps with
  | nil =>
    intro s
    cases s <;> simp [globMatch, GlobSem]
  | cons c ps ih =>
    intro s
    by_cases hc : c = '*'
    · subst hc
      simp only [globMatch, GlobSem, if_true, List.any_eq_true]
      constructor
      · rintro ⟨t, ht, hm⟩
        rcases (List.mem_tails _ _).mp ht with ⟨a, rfl⟩
        exact ⟨a, t, rfl, (ih t).mp hm⟩
      · rintro ⟨a, b, rfl, hb⟩
        exact ⟨b, (List.mem_tails _ _).mpr ⟨a, rfl⟩, (ih b).mpr hb⟩
    · cases s with
      | nil => simp [globMatch, GlobSem, hc]
      | cons d s' =>
        simp only [globMatch, GlobSem, if_neg hc, Bool.and_eq_true, beq_iff_eq]
        constructor
        · rintro ⟨rfl, hm⟩
          exact ⟨s', rfl, (ih s').mp hm⟩
        · rintro ⟨t, ht, hm⟩
          injection ht with h1 h2
          subst h1
          subst h2
          exact ⟨rfl, (ih _).mpr hm⟩

theorem GlobSem_self (ps : List Char) : GlobSem ps ps := by
  induction ps with
  | nil => simp [GlobSem]
  | cons c ps ih =>
    by_cases hc : c = '*'
    · subst hc
      simp only [GlobSem, if_true]
      exact ⟨['*'], ps, rfl, ih⟩
    · simp only [GlobSem, if_neg hc]
      exact ⟨ps, rfl, ih⟩

theorem globMatch_self (ps : List Char) : globMatch ps ps = true :=
  (globMatch_iff ps ps).mpr (GlobSem_self ps)

theorem strIncludes_iff (needle hay : List Char) :
    strIncludes needle hay = true ↔ ∃ a b, hay = a ++ needle ++ b := by
  induction hay with
  | nil =>
    simp only [strIncludes, List.isPrefixOf_iff_prefix]
    constructor
    · rintro ⟨t, ht⟩
      exact ⟨[], t, by simpa using ht.symm⟩
    · rintro ⟨a, b, h⟩
      rcases List.append_eq_nil.mp h.symm with ⟨h1, h2⟩
      rcases List.append_eq_nil.mp h1 with ⟨rfl, rfl⟩
      exact ⟨[], rfl⟩
  | cons c t ih =>
    simp only [strIncludes, Bool.or_eq_true, List.isPrefixOf_iff_prefix]
    constructor
    · rintro (⟨u, hu⟩ | h)
      · exact ⟨[], u, by simpa using hu.symm⟩
      · rcases ih.mp h with ⟨a, b, rfl⟩
        exact ⟨c :: a, b, rfl⟩
    · rintro ⟨a, b, hab⟩
      cases a with
      | nil =>
        left
        exact ⟨b, by simpa using hab.symm⟩
      | cons x a' =>
        have h1 : c = x ∧ t = a' ++ (needle ++ b) := by simpa using hab
        exact Or.inr (ih.mpr ⟨a', b, by rw [List.append_assoc]; exact h1.2⟩)

/-- `GlobSem` of a pattern ending in `*`: the pattern before the star must
match some prefix. -/
theorem GlobSem_append_star (p : List Char) :
    ∀ m, GlobSem (p ++ ['*']) m ↔ ∃ x y, m = x ++ y ∧ GlobSem p x := by
  induction p with
  | nil =>
    intro m
    simp only [List.nil_append]
    constructor
    · intro h
      exact ⟨[], m, rfl, rfl⟩
    · rintro ⟨x, y, rfl, hx⟩
      have hx' : x = [] := hx
      subst hx'
      simp only [GlobSem, if_true]
      exact ⟨y, [], by simp, rfl⟩
  | cons c p ih =>
    intro m
    by_cases hc : c = '*'
    · subst hc
      rw [List.cons_append]
      simp only [GlobSem, if_true]
      constructor
      · rintro ⟨a, b, rfl, hb⟩
        rcases (ih b).mp hb with ⟨x, y, rfl, hx⟩
        exact ⟨a ++ x, y, by simp, ⟨a, x, rfl, hx⟩⟩
      · rintro ⟨x, y, rfl, hx⟩
        rcases hx with ⟨a, b, rfl, hb⟩
        exact ⟨a, b ++ y, by simp, (ih (b ++ y)).mpr ⟨b, y, rfl, hb⟩⟩
    · rw [List.cons_append]
      simp only [GlobSem, if_neg hc]
      constructor
      · rintro ⟨t, rfl, ht⟩
        rcases (ih t).mp ht with ⟨x, y, rfl, hx⟩
        exact ⟨c :: x, y, rfl, ⟨x, rfl, hx⟩⟩
      · rintro ⟨x, y, rfl, hx⟩
        rcases hx with ⟨t, rfl, ht⟩
        exact ⟨t ++ y, rfl, (ih (t ++ y)).mpr ⟨t, y, rfl, ht⟩⟩

/-- An unanchored regex search for a wildcard pattern is the same as an
anchored match of the pattern wrapped in `*` on both sides: the pattern
matches some contiguous substring. -/
theorem globMatch_unanchored (p s : List Char) :
    globMatch ('*' :: (p ++ ['*'])) s = true ↔
      ∃ a m b, s = a ++ m ++ b ∧ GlobSem p m := by
  rw [globMatch_iff]
  show GlobSem ('*' :: (p ++ ['*'])) s ↔ _
  simp only [GlobSem, if_true]
  constructor
  · rintro ⟨a, b, rfl, hb⟩
    rcases (GlobSem_append_star p b).mp hb with ⟨x, y, rfl, hx⟩
    exact ⟨a, x, y, by simp, hx⟩
  · rintro ⟨a, m, b, rfl, hm⟩
    exact ⟨a, m ++ b, by simp, (GlobSem_append_star p (m ++ b)).mpr ⟨m, b, rfl, hm⟩⟩

/-! ## Blacklist (src/extension/config.js) -/

/-- Result of a successful WHATWG `new URL(url)` parse; the code only
reads `.hostname`. -/
structure UrlObj where
  hostname : String
deriving DecidableEq, Repr

/-- The `Blacklist` rule state: `this.rules` with `domains` and
`patterns` arrays. -/
structure BlacklistRules where
  domains : List String
  patterns : List String
deriving DecidableEq, Repr

namespace Blacklist

/-- Embeds `Blacklist._matchDomain(hostname, pattern)`: exact equality
first; otherwise, when the pattern contains `*`, the anchored regex built
by escaping dots and turning `*` into `.*` (embedded as `globMatch`)
must match the whole hostname. -/
def matchDomain (hostname pattern : String) : Bool :=
  if hostname == pattern then true
  else if pattern.data.contains '*' then globMatch pattern.data hostname.data
  else false

/-- Embeds `Blacklist._matchPattern(url, pattern)`: with no `*`, a
substring containment test (`url.includes(pattern)`); with `*`, an
unanchored regex test of the pattern with all regex metacharacters except
`*` escaped (embedded as an anchored `globMatch` of the pattern wrapped
in `*` on both sides, which is the same relation). -/
def matchPattern (url pattern : String) : Bool :=
  if !(pattern.data.contains '*') then strIncludes pattern.data url.data
  else globMatch ('*' :: (pattern.data ++ ['*'])) url.data

/-- Embeds `Blacklist.matches(url)`: parse the URL (returning `false` on
parse failure, the `catch` branch), lowercase the hostname and the full
URL, then test every domain rule and every URL-pattern rule, short-circuit
OR. -/
def matchesUrl (parse : String → Option UrlObj) (rules : BlacklistRules)
    (url : String) : Bool :=
  match parse url with
  | none => false
  | some urlObj =>
    let hostname := jsToLowerCase urlObj.hostname
    let fullUrl := jsToLowerCase url
    (rules.domains.any fun domainPattern =>
      matchDomain hostname (jsToLowerCase domainPattern)) ||
    (rules.patterns.any fun urlPattern =>
      matchPattern fullUrl (jsToLowerCase urlPattern))

end Blacklist

/-! ## Statistics page (src/unnamed/part_002) -/

/-- Models JS `hostname.split('.')` (single-character separator). -/
def splitOnChar (sep : Char) : List Char → List (List Char)
  | [] => [[]]
  | c :: cs =>
    match splitOnChar sep cs with
    | [] => [[]]
    | h :: t => if c = sep then [] :: h :: t else (c :: h) :: t

/-- Models JS `parts.join('.')` on the split pieces. -/
def joinDots : List (List Char) → List Char
  | [] => []
  | [l] => l
  | l :: ls => l ++ '.' :: joinDots ls

/-- The generic second-level suffixes special-cased by `getRootDomain`. -/
def sldSuffixes : List (List Char) :=
  [("co").data, ("com").data, ("org").data, ("ac").data, ("gov").data,
   ("edu").data, ("net").data]

/-- The hostname part of `getRootDomain`: split on dots; keep the last
three labels when there are at least three and the second-to-last label
is a special suffix, otherwise the last two. -/
def rootOfHostname (hostname : String) : String :=
  let parts := splitOnChar '.' hostname.data
  if 3 ≤ parts.length ∧ parts.getD (parts.length - 2) [] ∈ sldSuffixes then
    ⟨joinDots (parts.drop (parts.length - 3))⟩
  else
    ⟨joinDots (parts.drop (parts.length - 2))⟩

/-- Embeds `getRootDomain(url)`: `new URL(url).hostname` reduced to the
root domain, `null` (here `none`) when the URL does not parse. -/
def getRootDomain (parse : String → Option UrlObj) (url : String) :
    Option String :=
  match parse url with
  | none => none
  | some u => some (rootOfHostname u.hostname)

/-- A JS runtime value that is either a number or a string (needed
because `toFixed` produces a string where the spec announces a float). -/
inductive JsValue where
  | num : ℚ → JsValue
  | str : String → JsValue
deriving DecidableEq, Repr

/-- True iff the value is a JS number. -/
def JsValue.isNum : JsValue → Bool
  | num _ => true
  | str _ => false

/-- Models the JS expression `((visitCount / totalVisits) * 100).toFixed(1)`
in exact arithmetic: the value `visitCount/totalVisits*100` rounded to the
nearest tenth (half up) and rendered with exactly one decimal digit.
`tenths` is `⌊visitCount*1000/totalVisits + 1/2⌋` computed over ℕ. -/
def toFixed1Pct (visitCount totalVisits : Nat) : String :=
  let tenths : Nat := (2000 * visitCount + totalVisits) / (2 * totalVisits)
  toString (tenths / 10) ++ "." ++ toString (tenths % 10)

/-- One history record as consumed by the statistics page (only `url` is
read by `processDomainData`). -/
structure VisitRecord where
  url : String
deriving DecidableEq, Repr

/-- One entry of the statistics `domainMap` after the grouping pass:
domain, record count, and the set of distinct URLs seen (insertion
order, as a JS `Set`). -/
structure DomainGroup where
  domain : String
  visitCount : Nat
  urls : List String
deriving DecidableEq, Repr

/-- JS `Set.prototype.add`: append if not already present. -/
def insertUrl (urls : List String) (u : String) : List String :=
  if urls.contains u then urls else urls ++ [u]

/-- One step of the grouping loop of `processDomainData`: skip records
whose URL has no root domain (`null` or the falsy empty string), bump the
domain's record count, and add the URL to the domain's URL set.  New
domains are appended (JS `Map` preserves insertion order). -/
def addItem (parse : String → Option UrlObj) (m : List DomainGroup)
    (item : VisitRecord) : List DomainGroup :=
  match getRootDomain parse item.url with
  | none => m
  | some d =>
    if d = ("") then m
    else if m.any fun g => g.domain == d then
      m.map fun g =>
        if g.domain == d then
          { g with visitCount := g.visitCount + 1, urls := insertUrl g.urls item.url }
        else g
    else m ++ [{ domain := d, visitCount := 1, urls := [item.url] }]

/-- The grouping pass of `processDomainData` over all history items. -/
def groupByDomain (parse : String → Option UrlObj)
    (historyItems : List VisitRecord) : List DomainGroup :=
  historyItems.foldl (addItem parse) []

/-- One output entry of `processDomainData`. -/
structure DomainAggregate where
  domain : String
  visitCount : Nat
  typedCount : Nat
  clickedCount : Nat
  percentage : JsValue
deriving DecidableEq, Repr

/-- The per-domain resolution pass of `processDomainData`: for every
distinct URL of the domain, fetch its visit list (`chrome.history.getVisits`,
modelled by `getVisits` returning the transition kinds) and classify each
visit as typed (`transition === 'typed'`) or clicked (anything else);
compute the percentage string via `toFixed(1)`. -/
def resolveGroup (getVisits : String → List String) (totalVisits : Nat)
    (g : DomainGroup) : DomainAggregate :=
  { domain := g.domain
    visitCount := g.visitCount
    typedCount :=
      (g.urls.map fun u => ((getVisits u).filter fun t => t == ("typed")).length).sum
    clickedCount :=
      (g.urls.map fun u => ((getVisits u).filter fun t => t != ("typed")).length).sum
    percentage := JsValue.str (toFixed1Pct g.visitCount totalVisits) }

/-- Stable insertion of one element: placed before the first element it
compares `le` with. -/
def insertSorted (le : α → α → Bool) (a : α) : List α → List α
  | [] => [a]
  | b :: bs => if le a b then a :: b :: bs else b :: insertSorted le a bs

/-- Stable sort by a boolean comparator; models the (stable) JS
`Array.prototype.sort`. -/
def insertionSort (le : α → α → Bool) : List α → List α
  | [] => []
  | a :: as => insertSorted le a (insertionSort le as)

theorem mem_insertSorted (le : α → α → Bool) (a x : α) :
    ∀ l, x ∈ insertSorted le a l ↔ x = a ∨ x ∈ l := by
  intro l
  induction l with
  | nil => simp [insertSorted]
  | cons b bs ih =>
    by_cases h : le a b = true
    · simp [insertSorted, h, List.mem_cons]
    · simp only [insertSorted, if_neg h, List.mem_cons, ih]
      tauto

theorem mem_insertionSort (le : α → α → Bool) (x : α) :
    ∀ l, x ∈ insertionSort le l ↔ x ∈ l := by
  intro l
  induction l with
  | nil => simp [insertionSort]
  | cons a as ih =>
    simp [insertionSort, mem_insertSorted, ih, List.mem_cons]

/-- Embeds `processDomainData(historyItems)`: group records by root
domain, resolve typed/clicked counts and the percentage for each domain,
and sort descending by record count (`(a, b) => b.visitCount - a.visitCount`,
stable). -/
def processDomainData (parse : String → Option UrlObj)
    (getVisits : String → List String)
    (historyItems : List VisitRecord) : List DomainAggregate :=
  let totalVisits := historyItems.length
  let groups := groupByDomain parse historyItems
  let resolved := groups.map (resolveGroup getVisits totalVisits)
  insertionSort (fun a b => b.visitCount ≤ a.visitCount) resolved

/-! ## Feed page (src/unnamed/part_001): pagination -/

/-- `CONFIG.batchSize`. -/
def batchSize : Nat := 20

/-- One cached history item of the feed (`visitCount` is rewritten at
batch-serve time from the visit-detail lookup). -/
structure FeedItem where
  url : String
  lastVisitTime : Int
  visitCount : Nat
deriving DecidableEq, Repr

/-- The feed `state` object (the fields touched by `loadMoreHistory`;
`filteredCount` is carried along untouched). -/
structure FeedState where
  currentOffset : Nat
  isLoading : Bool
  hasMore : Bool
  allHistory : List FeedItem
  filteredCount : Nat
deriving DecidableEq, Repr

/-- Embeds `getHistoryBatch(offset, limit)`:
`state.allHistory.slice(offset, offset + limit)`. -/
def getHistoryBatch (s : FeedState) (offset limit : Nat) : List FeedItem :=
  (s.allHistory.drop offset).take limit

/-- The state at the suspension point of `loadMoreHistory`, right after
the guard passed and `state.isLoading = true` was set (this is the state
a second, concurrently triggered call observes). -/
def startLoading (s : FeedState) : FeedState := { s with isLoading := true }

/-- The observable outcome of one `loadMoreHistory` call: the state when
the call returns, the batch of items handed to `renderCards`, how many
batch reads of the cached list were made (`getHistoryBatch` calls) and
how many per-URL visit-detail lookups (`chrome.history.getVisits` calls)
were issued. -/
structure LoadResult where
  state : FeedState
  batch : List FeedItem
  batchFetches : Nat
  visitLookups : Nat
deriving DecidableEq, Repr

/-- Embeds `loadMoreHistory()`.  The guard returns immediately while a
load is in flight or the list is exhausted.  Otherwise the next batch is
sliced from the cached filtered history; an empty batch marks the list
exhausted; a non-empty batch gets each item's `visitCount` resolved via
the visit-detail lookup, the offset advances, and `hasMore` is cleared
once the offset reaches the end.  The `finally` block resets
`isLoading`. -/
def loadMoreHistory (getVisits : String → List String) (s : FeedState) :
    LoadResult :=
  if s.isLoading || !s.hasMore then
    { state := s, batch := [], batchFetches := 0, visitLookups := 0 }
  else
    let s1 := startLoading s
    let historyItems := getHistoryBatch s1 s1.currentOffset batchSize
    if historyItems.isEmpty then
      { state := { s1 with hasMore := false, isLoading := false }
        batch := []
        batchFetches := 1
        visitLookups := 0 }
    else
      let itemsWithVisitCount := historyItems.map fun item =>
        { item with visitCount := (getVisits item.url).length }
      let newOffset := s1.currentOffset + historyItems.length
      { state :=
          { s1 with
            currentOffset := newOffset
            hasMore := if s1.allHistory.length ≤ newOffset then false else s1.hasMore
            isLoading := false }
        batch := itemsWithVisitCount
        batchFetches := 1
        visitLookups := historyItems.length }

/-! ## Chat layer (src/unnamed/part_001): session store -/

/-- One chat message: `{role, content}`. -/
structure ChatMessage where
  role : String
  content : String
deriving DecidableEq, Repr

/-- One stored transcript: `{messages, content}` (messages plus the
optional fetched page content). -/
structure ChatTranscript where
  messages : List ChatMessage
  content : Option String
deriving DecidableEq, Repr

/-- The `chatHistories` object: URL-keyed association (JS object keys are
unique; insertion order preserved). -/
abbrev ChatStore := List (String × ChatTranscript)

/-- Reading `chatHistories[url]`. -/
def getChat (store : ChatStore) (url : String) : Option ChatTranscript :=
  (store.find? fun kv => kv.1 == url).map fun kv => kv.2

/-- Embeds `clearCurrentChat()` restricted to its effect on
`chatHistories`: no current page means no effect; otherwise a
`confirm(...)` dialog gates `delete chatHistories[currentPage.url]`
(the result of the dialog is the `confirmed` input). -/
def clearCurrentChat (confirmed : Bool) (currentPage : Option String)
    (store : ChatStore) : ChatStore :=
  match currentPage with
  | none => store
  | some url =>
    if confirmed then store.filter fun kv => kv.1 != url else store

/-- Embeds `clearAllChats()` restricted to its effect on `chatHistories`:
with no stored chats it only alerts; otherwise a `confirm(...)` dialog
gates `chatHistories = {}`. -/
def clearAllChats (confirmed : Bool) (store : ChatStore) : ChatStore :=
  if store.length = 0 then store
  else if confirmed then [] else store

/-! ## Claim theorems -/

/-- C2: for every rule set and every input string that fails to parse as
a URL, `Blacklist.matches` returns `false` (fail open): it neither
crashes (it is a total function) nor blacklists the unparsable URL. -/
theorem claim_C2 (parse : String → Option UrlObj) (rules : BlacklistRules)
    (url : String) (h : parse url = none) :
    Blacklist.matchesUrl parse rules url = false := by
  unfold Blacklist.matchesUrl
  rw [h]

/-- C2 witness: a parser that rejects everything, a non-trivial rule set,
a concrete input. -/
theorem claim_C2_witness :
    Blacklist.matchesUrl (fun _ => none) ⟨[("example.com")], [("/login")]⟩
      ("not a url") = false :=
  claim_C2 (fun _ => none) ⟨[("example.com")], [("/login")]⟩ ("not a url") rfl

/-- C7: once the paginator is exhausted (`hasMore = false`), every
`loadMoreHistory` call returns an empty batch without error, leaves the
state untouched, and issues no batch read and no visit-detail lookup. -/
theorem claim_C7 (getVisits : String → List String) (s : FeedState)
    (h : s.hasMore = false) :
    loadMoreHistory getVisits s =
      { state := s, batch := [], batchFetches := 0, visitLookups := 0 } := by
  unfold loadMoreHistory
  rw [h]
  simp

/-- C7 witness: a concrete exhausted state. -/
theorem claim_C7_witness :
    loadMoreHistory (fun _ => [])
      { currentOffset := 1, isLoading := false, hasMore := false,
        allHistory := [{ url := ("http://a.com/"), lastVisitTime := 5, visitCount := 0 }],
        filteredCount := 0 } =
      { state :=
          { currentOffset := 1, isLoading := false, hasMore := false,
            allHistory := [{ url := ("http://a.com/"), lastVisitTime := 5, visitCount := 0 }],
            filteredCount := 0 },
        batch := [], batchFetches := 0, visitLookups := 0 } :=
  claim_C7 (fun _ => [])
    { currentOffset := 1, isLoading := false, hasMore := false,
      allHistory := [{ url := ("http://a.com/"), lastVisitTime := 5, visitCount := 0 }],
      filteredCount := 0 } rfl

/-- C8: while the loading flag is set, `loadMoreHistory` is a no-op (it
returns immediately, changes no state field, issues no batch read and no
lookup); consequently a second call issued at the suspension point of an
in-flight first call (state `startLoading s`) performs zero batch reads
while the first call performs exactly one. -/
theorem claim_C8 (getVisits : String → List String) (s : FeedState) :
    (s.isLoading = true →
      loadMoreHistory getVisits s =
        { state := s, batch := [], batchFetches := 0, visitLookups := 0 }) ∧
    (s.isLoading = false → s.hasMore = true →
      loadMoreHistory getVisits (startLoading s) =
        { state := startLoading s, batch := [], batchFetches := 0,
          visitLookups := 0 } ∧
      (loadMoreHistory getVisits s).batchFetches = 1) := by
  constructor
  · intro h
    unfold loadMoreHistory
    rw [h]
    simp
  · intro h1 h2
    constructor
    · unfold loadMoreHistory
      simp [startLoading]
    · unfold loadMoreHistory
      rw [h1, h2]
      simp only [Bool.not_true, Bool.or_false]
      rw [if_neg Bool.false_ne_true]
      split <;> rfl

/-- C8 witness: a loading state on which the call is a no-op, and a
ready state on which the interleaving makes exactly one batch read. -/
theorem claim_C8_witness :
    (loadMoreHistory (fun _ => [])
      { currentOffset := 0, isLoading := true, hasMore := true,
        allHistory := [], filteredCount := 0 } =
      { state :=
          { currentOffset := 0, isLoading := true, hasMore := true,
            allHistory := [], filteredCount := 0 },
        batch := [], batchFetches := 0, visitLookups := 0 }) ∧
    (loadMoreHistory (fun _ => [])
      (startLoading
        { currentOffset := 0, isLoading := false, hasMore := true,
          allHistory := [{ url := ("http://a.com/"), lastVisitTime := 5, visitCount := 0 }],
          filteredCount := 0 }) =
      { state :=
          startLoading
            { currentOffset := 0, isLoading := false, hasMore := true,
              allHistory := [{ url := ("http://a.com/"), lastVisitTime := 5, visitCount := 0 }],
              filteredCount := 0 },
        batch := [], batchFetches := 0, visitLookups := 0 }) ∧
    (loadMoreHistory (fun _ => [])
      { currentOffset := 0, isLoading := false, hasMore := true,
        allHistory := [{ url := ("http://a.com/"), lastVisitTime := 5, visitCount := 0 }],
        filteredCount := 0 }).batchFetches = 1 :=
  ⟨(claim_C8 (fun _ => [])
      { currentOffset := 0, isLoading := true, hasMore := true,
        allHistory := [], filteredCount := 0 }).1 rfl,
   ((claim_C8 (fun _ => [])
      { currentOffset := 0, isLoading := false, hasMore := true,
        allHistory := [{ url := ("http://a.com/"), lastVisitTime := 5, visitCount := 0 }],
        filteredCount := 0 }).2 rfl rfl).1,
   ((claim_C8 (fun _ => [])
      { currentOffset := 0, isLoading := false, hasMore := true,
        allHistory := [{ url := ("http://a.com/"), lastVisitTime := 5, visitCount := 0 }],
        filteredCount := 0 }).2 rfl rfl).2⟩

theorem getChat_filter_self (store : ChatStore) (url : String) :
    getChat (store.filter fun kv => kv.1 != url) url = none := by
  unfold getChat
  rw [List.find?_eq_none.mpr]
  · rfl
  · intro kv hkv
    have h1 : (kv.1 != url) = true := (List.mem_filter.mp hkv).2
    simp only [bne_iff_ne, ne_eq] at h1
    simp [h1]

theorem getChat_filter_other (store : ChatStore) (url k : String)
    (hk : k ≠ url) :
    getChat (store.filter fun kv => kv.1 != url) k = getChat store k := by
  unfold getChat
  congr 1
  induction store with
  | nil => rfl
  | cons kv rest ih =>
    rw [List.filter_cons]
    by_cases h1 : kv.1 = url
    · have hne : (url == k) = false := by
        simp only [beq_eq_false_iff_ne, ne_eq]
        exact fun hh => hk hh.symm
      simp only [h1, bne_self_eq_false, Bool.false_eq_true, if_false, List.find?]
      rw [hne]
      exact ih
    · have hb : (kv.1 != url) = true := by simp [h1]
      simp only [hb, if_true, List.find?]
      rcases Bool.eq_false_or_eq_true (kv.1 == k) with h2 | h2
      · simp only [h2]
      · simp only [h2]
        exact ih

/-- C9 (amended): once the confirmation dialog is accepted, clearing a
single chat removes exactly that URL's entry (every other key reads back
unchanged), and clearing all chats leaves every key reading back absent;
but the clear operations themselves gate the deletion behind the
confirmation dialog (see the counterexample). -/
theorem claim_C9 (store : ChatStore) (url k : String) :
    getChat (clearCurrentChat true (some url) store) url = none ∧
    (k ≠ url →
      getChat (clearCurrentChat true (some url) store) k = getChat store k) ∧
    getChat (clearAllChats true store) k = none := by
  refine ⟨?_, ?_, ?_⟩
  · unfold clearCurrentChat
    simp only [if_true]
    exact getChat_filter_self store url
  · intro hk
    unfold clearCurrentChat
    simp only [if_true]
    exact getChat_filter_other store url k hk
  · unfold clearAllChats
    by_cases h : store.length = 0
    · rw [if_pos h]
      rw [List.length_eq_zero.mp h]
      rfl
    · rw [if_neg h, if_pos rfl]
      rfl

/-- C9 counterexample: the claim says the store performs no confirmation
step, but both clear operations gate the deletion on the `confirm(...)`
dialog: with the dialog declined nothing is removed, with it accepted the
entry goes. -/
theorem claim_C9_cex :
    clearCurrentChat false (some ("https://a.com/"))
      [(("https://a.com/"), ⟨[⟨("user"), ("hi")⟩], none⟩)] =
      [(("https://a.com/"), ⟨[⟨("user"), ("hi")⟩], none⟩)] ∧
    clearCurrentChat true (some ("https://a.com/"))
      [(("https://a.com/"), ⟨[⟨("user"), ("hi")⟩], none⟩)] = [] ∧
    clearAllChats false
      [(("https://a.com/"), ⟨[⟨("user"), ("hi")⟩], none⟩)] =
      [(("https://a.com/"), ⟨[⟨("user"), ("hi")⟩], none⟩)] := by
  refine ⟨rfl, ?_, rfl⟩
  decide

/-- C9 witness: the amended theorem applied to a two-entry store. -/
theorem claim_C9_witness :
    getChat
      (clearCurrentChat true (some ("https://a.com/"))
        [(("https://a.com/"), ⟨[], none⟩), (("https://b.com/"), ⟨[], some ("page")⟩)])
      ("https://a.com/") = none ∧
    getChat
      (clearCurrentChat true (some ("https://a.com/"))
        [(("https://a.com/"), ⟨[], none⟩), (("https://b.com/"), ⟨[], some ("page")⟩)])
      ("https://b.com/") =
      getChat [(("https://a.com/"), ⟨[], none⟩), (("https://b.com/"), ⟨[], some ("page")⟩)]
        ("https://b.com/") ∧
    getChat
      (clearAllChats true
        [(("https://a.com/"), ⟨[], none⟩), (("https://b.com/"), ⟨[], some ("page")⟩)])
      ("https://b.com/") = none := by
  have h := claim_C9
    [(("https://a.com/"), ⟨[], none⟩), (("https://b.com/"), ⟨[], some ("page")⟩)]
    ("https://a.com/") ("https://b.com/")
  exact ⟨h.1, h.2.1 (by decide), h.2.2⟩

theorem strIncludes_nil (hay : List Char) : strIncludes [] hay = true := by
  cases hay <;> simp [strIncludes, List.isPrefixOf]

/-- C10: when the URL-pattern rule set contains the empty string, every
URL that parses is blacklisted, because the empty string is a substring
of every lowercased URL. -/
theorem claim_C10 (parse : String → Option UrlObj) (rules : BlacklistRules)
    (url : String) (u : UrlObj) (hparse : parse url = some u)
    (hmem : ("") ∈ rules.patterns) :
    Blacklist.matchesUrl parse rules url = true := by
  unfold Blacklist.matchesUrl
  rw [hparse]
  refine Bool.or_eq_true .. |>.mpr (Or.inr ?_)
  refine List.any_eq_true.mpr ⟨(""), hmem, ?_⟩
  show Blacklist.matchPattern (jsToLowerCase url) (jsToLowerCase ("")) = true
  have he : jsToLowerCase ("") = ("") := rfl
  rw [he]
  unfold Blacklist.matchPattern
  rw [if_pos (by decide : (!((("") : String).data.contains '*')) = true)]
  exact strIncludes_nil _

/-- C10 witness: a one-rule set containing the empty pattern and a URL
accepted by the parser. -/
theorem claim_C10_witness :
    Blacklist.matchesUrl (fun _ => some ⟨("a.com")⟩) ⟨[], [("")]⟩
      ("http://a.com/x") = true :=
  claim_C10 (fun _ => some ⟨("a.com")⟩) ⟨[], [("")]⟩ ("http://a.com/x")
    ⟨("a.com")⟩ rfl (by decide)

theorem matchDomain_iff (h r : String) :
    Blacklist.matchDomain h r = true ↔
      (if r.data.contains '*' then GlobSem r.data h.data else h = r) := by
  unfold Blacklist.matchDomain
  by_cases hc : r.data.contains '*' = true
  · rw [if_pos hc, if_pos hc]
    by_cases he : (h == r) = true
    · have he' : h = r := beq_iff_eq .. |>.mp he
      subst he'
      rw [if_pos he]
      exact iff_of_true rfl (GlobSem_self _)
    · rw [if_neg he]
      exact globMatch_iff r.data h.data
  · rw [if_neg hc, if_neg hc]
    by_cases he : (h == r) = true
    · have he' : h = r := beq_iff_eq .. |>.mp he
      rw [if_pos he]
      exact iff_of_true rfl he'
    · have he' : ¬ h = r := fun hh => he (beq_iff_eq .. |>.mpr hh)
      rw [if_neg he]
      exact iff_of_false Bool.false_ne_true he'

/-- C3: a domain rule without `*` matches exactly the case-insensitively
equal hostname; a rule with `*` matches exactly the hostnames accepted by
the anchored wildcard regex (dots literal, `*` = zero or more of any
character, whole-hostname match); and `*.ads.com` matches `x.ads.com`
and `a.b.ads.com` but not `ads.com` and not `badsads.com`. -/
theorem claim_C3 :
    (∀ hostname rule : String,
      Blacklist.matchDomain (jsToLowerCase hostname) (jsToLowerCase rule) = true ↔
        (if (jsToLowerCase rule).data.contains '*' then
          GlobSem (jsToLowerCase rule).data (jsToLowerCase hostname).data
        else jsToLowerCase hostname = jsToLowerCase rule)) ∧
    Blacklist.matchDomain ("x.ads.com") ("*.ads.com") = true ∧
    Blacklist.matchDomain ("a.b.ads.com") ("*.ads.com") = true ∧
    Blacklist.matchDomain ("ads.com") ("*.ads.com") = false ∧
    Blacklist.matchDomain ("badsads.com") ("*.ads.com") = false :=
  ⟨fun hostname rule => matchDomain_iff (jsToLowerCase hostname) (jsToLowerCase rule),
   by decide, by decide, by decide, by decide⟩

theorem matchPattern_iff (u r : String) :
    Blacklist.matchPattern u r = true ↔
      (if r.data.contains '*' then
        ∃ a m b, u.data = a ++ m ++ b ∧ GlobSem r.data m
      else ∃ a b, u.data = a ++ r.data ++ b) := by
  unfold Blacklist.matchPattern
  by_cases hc : r.data.contains '*' = true
  · rw [if_pos hc]
    rw [if_neg (show ¬ ((!(r.data.contains '*')) = true) by rw [hc]; decide)]
    exact globMatch_unanchored r.data u.data
  · have hc' : r.data.contains '*' = false := by
      revert hc
      cases r.data.contains '*' <;> simp
    rw [if_neg hc]
    rw [if_pos (show (!(r.data.contains '*')) = true by rw [hc']; decide)]
    exact strIncludes_iff r.data u.data

/-- C4: a URL-pattern rule without `*` matches exactly the URLs containing
it as a substring of the full lowercased URL; a rule with `*` matches
exactly the URLs in which the wildcard pattern (metacharacters literal,
`*` = zero or more of any character) matches somewhere, unanchored; and
`/login` matches `https://site.com/app/login?x=1` but not
`https://site.com/app/logout`. -/
theorem claim_C4 :
    (∀ url rule : String,
      Blacklist.matchPattern (jsToLowerCase url) (jsToLowerCase rule) = true ↔
        (if (jsToLowerCase rule).data.contains '*' then
          ∃ a m b, (jsToLowerCase url).data = a ++ m ++ b ∧
            GlobSem (jsToLowerCase rule).data m
        else ∃ a b,
          (jsToLowerCase url).data = a ++ (jsToLowerCase rule).data ++ b)) ∧
    Blacklist.matchPattern (jsToLowerCase ("https://site.com/app/login?x=1"))
      ("/login") = true ∧
    Blacklist.matchPattern (jsToLowerCase ("https://site.com/app/logout"))
      ("/login") = false :=
  ⟨fun url rule => matchPattern_iff (jsToLowerCase url) (jsToLowerCase rule),
   by decide, by decide⟩

/-- The root-domain reduction as the spec words it: keep the last two
hostname labels, or the last three when the second-to-last label is a
generic second-level suffix (taking at most as many labels as exist). -/
def specRootDomain (hostname : String) : String :=
  let parts := splitOnChar '.' hostname.data
  if parts.getD (parts.length - 2) [] ∈ sldSuffixes then
    ⟨joinDots (parts.drop (parts.length - 3))⟩
  else
    ⟨joinDots (parts.drop (parts.length - 2))⟩

theorem rootOfHostname_eq_spec (h : String) :
    rootOfHostname h = specRootDomain h := by
  unfold rootOfHostname specRootDomain
  by_cases hm :
      (splitOnChar '.' h.data).getD ((splitOnChar '.' h.data).length - 2) [] ∈
        sldSuffixes
  · by_cases hl : 3 ≤ (splitOnChar '.' h.data).length
    · rw [if_pos ⟨hl, hm⟩, if_pos hm]
    · rw [if_neg (fun hx => hl hx.1), if_pos hm]
      have : (splitOnChar '.' h.data).length - 2 =
          (splitOnChar '.' h.data).length - 3 := by omega
      rw [this]
  · rw [if_neg (fun hx => hm hx.2), if_neg hm]

/-- C5: for every URL whose hostname parses, `getRootDomain` keeps the
last two hostname labels, or the last three when the second-to-last label
is one of co, com, org, ac, gov, edu, net; with the three examples of the
spec. -/
theorem claim_C5 (parse : String → Option UrlObj) (url : String)
    (u : UrlObj) (h : parse url = some u) :
    getRootDomain parse url = some (specRootDomain u.hostname) ∧
    rootOfHostname ("www.example.co.uk") = ("example.co.uk") ∧
    rootOfHostname ("blog.example.com") = ("example.com") ∧
    rootOfHostname ("example.com") = ("example.com") := by
  refine ⟨?_, by decide, by decide, by decide⟩
  unfold getRootDomain
  rw [h]
  exact congrArg some (rootOfHostname_eq_spec u.hostname)

/-- C5 witness: a parser returning a concrete hostname. -/
theorem claim_C5_witness :
    getRootDomain (fun _ => some ⟨("www.example.co.uk")⟩)
      ("https://www.example.co.uk/x") =
      some (specRootDomain ("www.example.co.uk")) ∧
    rootOfHostname ("www.example.co.uk") = ("example.co.uk") :=
  ⟨(claim_C5 (fun _ => some ⟨("www.example.co.uk")⟩)
      ("https://www.example.co.uk/x") ⟨("www.example.co.uk")⟩ rfl).1,
   (claim_C5 (fun _ => some ⟨("www.example.co.uk")⟩)
      ("https://www.example.co.uk/x") ⟨("www.example.co.uk")⟩ rfl).2.1⟩

theorem length_filter_typed_add (l : List String) :
    ((l.filter fun t => t == ("typed")).length +
      (l.filter fun t => t != ("typed")).length) = l.length := by
  induction l with
  | nil => rfl
  | cons a l ih =>
    rw [List.filter_cons, List.filter_cons]
    by_cases h : (a == ("typed")) = true
    · have h2 : (a != ("typed")) = false := by simp [bne, h]
      simp only [h, if_true, h2, Bool.false_eq_true, if_false, List.length_cons]
      omega
    · have h1 : (a == ("typed")) = false := by
        revert h
        cases a == ("typed") <;> simp
      have h2 : (a != ("typed")) = true := by simp [bne, h1]
      simp only [h1, Bool.false_eq_true, if_false, h2, if_true, List.length_cons]
      omega

theorem sum_filter_typed_add (gv : String → List String) :
    ∀ urls : List String,
      ((urls.map fun u => ((gv u).filter fun t => t == ("typed")).length).sum +
        (urls.map fun u => ((gv u).filter fun t => t != ("typed")).length).sum) =
        (urls.map fun u => (gv u).length).sum := by
  intro urls
  induction urls with
  | nil => rfl
  | cons u us ih =>
    simp only [List.map_cons, List.sum_cons]
    have h := length_filter_typed_add (gv u)
    omega

theorem typed_add_clicked (gv : String → List String) (total : Nat)
    (g : DomainGroup) :
    (resolveGroup gv total g).typedCount + (resolveGroup gv total g).clickedCount =
      (g.urls.map fun u => (gv u).length).sum :=
  sum_filter_typed_add gv g.urls

theorem resolveGroup_mem_processDomainData (parse : String → Option UrlObj)
    (gv : String → List String) (items : List VisitRecord) (grp : DomainGroup)
    (hg : grp ∈ groupByDomain parse items) :
    resolveGroup gv items.length grp ∈ processDomainData parse gv items := by
  simp only [processDomainData]
  exact (mem_insertionSort _ _ _).mpr (List.mem_map_of_mem _ hg)

/-- C1 (amended): every group collected by the grouping pass appears
resolved in the output, and its `typedCount + clickedCount` equals the
total number of visit-detail events across the domain's distinct URLs
(each individual visit classified exactly once as typed or clicked) —
which is not in general the record count `visitCount` (see the
counterexample). -/
theorem claim_C1 (parse : String → Option UrlObj) (gv : String → List String)
    (items : List VisitRecord) (grp : DomainGroup)
    (hg : grp ∈ groupByDomain parse items) :
    resolveGroup gv items.length grp ∈ processDomainData parse gv items ∧
    (resolveGroup gv items.length grp).typedCount +
      (resolveGroup gv items.length grp).clickedCount =
      (grp.urls.map fun u => (gv u).length).sum :=
  ⟨resolveGroup_mem_processDomainData parse gv items grp hg,
   typed_add_clicked gv items.length grp⟩

/-- C1 counterexample: one record whose URL has two clicked visit events:
the aggregate has `visitCount = 1` (one history record) but
`typedCount + clickedCount = 2` (two visit events), so
`typedCount + clickedCount = visitCount` fails. -/
theorem claim_C1_cex :
    ¬ (∀ a ∈ processDomainData (fun _ => some ⟨("a.com")⟩)
        (fun _ => [("link"), ("link")]) [⟨("http://a.com/")⟩],
        a.typedCount + a.clickedCount = a.visitCount) := by decide

/-- C1 witness: the amended theorem at the concrete one-record input. -/
theorem claim_C1_witness :
    resolveGroup (fun _ => [("link"), ("link")]) 1
        ⟨("a.com"), 1, [("http://a.com/")]⟩ ∈
      processDomainData (fun _ => some ⟨("a.com")⟩)
        (fun _ => [("link"), ("link")]) [⟨("http://a.com/")⟩] ∧
    (resolveGroup (fun _ => [("link"), ("link")]) 1
        ⟨("a.com"), 1, [("http://a.com/")]⟩).typedCount +
      (resolveGroup (fun _ => [("link"), ("link")]) 1
        ⟨("a.com"), 1, [("http://a.com/")]⟩).clickedCount = 2 :=
  claim_C1 (fun _ => some ⟨("a.com")⟩) (fun _ => [("link"), ("link")])
    [⟨("http://a.com/")⟩] ⟨("a.com"), 1, [("http://a.com/")]⟩ (by decide)

/-- C6 (amended): every aggregate's `percentage` is the string produced
by rendering `visitCount / totalFilteredRecords * 100` to one decimal
place (`toFixed(1)` returns a string, not a float — see the
counterexample). -/
theorem claim_C6 (parse : String → Option UrlObj) (gv : String → List String)
    (items : List VisitRecord) (agg : DomainAggregate)
    (h : agg ∈ processDomainData parse gv items) :
    agg.percentage = JsValue.str (toFixed1Pct agg.visitCount items.length) ∧
    agg.percentage.isNum = false := by
  simp only [processDomainData] at h
  rw [mem_insertionSort] at h
  rcases List.mem_map.mp h with ⟨grp, hgrp, rfl⟩
  exact ⟨rfl, rfl⟩

/-- C6 counterexample: the produced `percentage` is the string "100.0",
not a number, contradicting "is a float". -/
theorem claim_C6_cex :
    (processDomainData (fun _ => some ⟨("b.com")⟩) (fun _ => [("typed")])
        [⟨("http://b.com/")⟩, ⟨("http://b.com/x")⟩]).map
        DomainAggregate.percentage = [JsValue.str ("100.0")] ∧
    JsValue.isNum (JsValue.str ("100.0")) = false := by decide

/-- C6 witness: the amended theorem at a concrete two-record input. -/
theorem claim_C6_witness :
    (resolveGroup (fun _ => [("typed")]) 2
        ⟨("b.com"), 2, [("http://b.com/"), ("http://b.com/x")]⟩).percentage =
      JsValue.str (toFixed1Pct 2 2) ∧
    (resolveGroup (fun _ => [("typed")]) 2
        ⟨("b.com"), 2, [("http://b.com/"), ("http://b.com/x")]⟩).percentage.isNum =
      false :=
  claim_C6 (fun _ => some ⟨("b.com")⟩) (fun _ => [("typed")])
    [⟨("http://b.com/")⟩, ⟨("http://b.com/x")⟩]
    (resolveGroup (fun _ => [("typed")]) 2
      ⟨("b.com"), 2, [("http://b.com/"), ("http://b.com/x")]⟩) (by decide)
